import Mathlib

/-!
Verification of the `libimagstore` core of the imag personal information
management suite: the `StoreId` path identity model (`storeid.rs`), the
`Entry` document model with its on-disk text format and verification rules
(`store.rs`), and the `Store` cache / CRUD orchestrator over the in-memory
backend (`store.rs`, with the backend map and the entry-buffer splitter
modelled from the specification, as `file_abstraction/` and `util.rs` are
not part of the sources at hand).

Machine text is modelled as `List Char`; the store state is a pair of
association lists (the cache map keyed by `StoreId`, the backend map keyed
by full filesystem paths).  All definitions are executable.
-/

namespace Imag

/-- Conventional single-quote character, kept as a named constant. -/
def quoteChar : Char := Char.ofNat 39

/-- Model of a path component as produced by `std::path::Path::components`:
a `Normal` named segment, or a special (non-normal) component such as `..`.
`CurDir` and prefix components are not distinguished from `parentDir` by any
code under verification, so one special constructor suffices. -/
inductive Component where
  | normal (s : String)
  | parentDir
deriving DecidableEq, Repr

/-- Model of Rust `PathBuf`: an absoluteness flag plus the component list
(the view `components()` offers; separators are already normalized away). -/
structure FsPath where
  absolute : Bool
  comps : List Component
deriving DecidableEq, Repr

/-- Source `storeid.rs`: `pub struct StoreId(PathBuf)` — the logical,
store-relative identity of one entry. -/
structure StoreId where
  path : FsPath
deriving DecidableEq, Repr

/-- Source `StoreId::new`: fails when the wrapped path is absolute,
otherwise wraps the path unchanged. -/
def StoreId.new (p : FsPath) : Except String StoreId :=
  if p.absolute then .error "Store Id local part is absolute"
  else .ok ⟨p⟩

/-- Source `StoreId::is_in_collection` comparison of one path component
against one collection name: only `Component::Normal` segments match, by
string equality; every special component fails to match. -/
def componentMatchesName : Component → String → Bool
  | .normal s, n => s == n
  | .parentDir, _ => false

/-- Source `StoreId::is_in_collection`: zip the id components with the
given collection names and require every zipped pair to match.  Note that
`zip` truncates to the shorter of the two lists. -/
def StoreId.is_in_collection (id : StoreId) (colls : List String) : Bool :=
  (id.path.comps.zip colls).all fun cn => componentMatchesName cn.1 cn.2

/-- Source `StoreIdWithBase::into_pathbuf`: the store root with the id
pushed onto it.  `PathBuf::push` replaces the base when the pushed path is
absolute; store ids are relative by construction, so the appended form is
the operative one. -/
def withBaseIntoPathbuf (base : FsPath) (p : FsPath) : FsPath :=
  if p.absolute then p else ⟨base.absolute, base.comps ++ p.comps⟩

end Imag

namespace Imag

/-- Model of `toml::Value` restricted to the shapes the store code
constructs and inspects: strings, booleans, integers and tables.  Tables
are association lists in textual order. -/
inductive Value where
  | str (s : String)
  | boolean (b : Bool)
  | int (n : Int)
  | table (t : List (String × Value))

/-- Whether a value is a TOML table (`Value::is_table`). -/
def Value.isTable : Value → Bool
  | .table _ => true
  | _ => false

/-- Key lookup in a table body (first binding wins, as in a map). -/
def tableLookup : List (String × Value) → String → Option Value
  | [], _ => none
  | kv :: r, key => if kv.1 == key then some kv.2 else tableLookup r key

/-- Modelled from the spec: `toml_query` single-segment `read` — a lookup
in a table, an error on a non-table value. -/
def Value.readKey : Value → String → Except String (Option Value)
  | .table t, key => .ok (tableLookup t key)
  | _, _ => .error "TomlQueryError"

/-- Modelled from the spec: `toml_query` `read_string` on a two-segment
dotted path such as `imag.version`: traverse both keys, then require a
string value (a present non-string value is a type error). -/
def Value.readStringPath (v : Value) (k1 k2 : String) : Except String (Option String) :=
  match v.readKey k1 with
  | .error e => .error e
  | .ok none => .ok none
  | .ok (some w) =>
    match w.readKey k2 with
    | .error e => .error e
    | .ok none => .ok none
    | .ok (some (.str s)) => .ok (some s)
    | .ok (some _) => .error "TypeError"

/-- Split a character list at a separator character. -/
def splitOnChar (sep : Char) : List Char → List (List Char)
  | [] => [[]]
  | c :: r =>
    let rest := splitOnChar sep r
    if c = sep then [] :: rest
    else match rest with
      | g :: gs => (c :: g) :: gs
      | [] => [[c]]

/-- One numeric identifier of a semantic version: `0`, or a nonempty digit
string without a leading zero. -/
def isNumericIdent : List Char → Bool
  | [] => false
  | [c] => c.isDigit
  | c :: cs => c.isDigit && c ≠ '0' && cs.all Char.isDigit

/-- Modelled from the spec: the `semver` crate version check used by
`has_imag_version_in_main_section` — a valid `MAJOR.MINOR.PATCH` semantic
version (pre-release and build metadata are not modelled). -/
def semverParses (s : String) : Bool :=
  match splitOnChar '.' s.data with
  | [a, b, c] => isNumericIdent a && isNumericIdent b && isNumericIdent c
  | _ => false

/-- Modelled from the spec: the `CARGO_PKG_VERSION` store-format version
string baked into `Entry::default_header` (a valid semantic version). -/
def cargoPkgVersion : String := "0.1.0"

/-- Machine text, byte-for-byte (`List Char`). -/
abbrev Text := List Char

/-- Source `store.rs`: an `Entry` is a location, a structured header and
an opaque content blob. -/
structure Entry where
  location : StoreId
  header : Value
  content : Text

/-- Source `Entry::default_header`: a single reserved `imag` section
holding the store-format version string. -/
def Entry.default_header : Value :=
  Value.table [("imag", Value.table [("version", Value.str cargoPkgVersion)])]

/-- Source `Entry::new`: default header, empty content. -/
def Entry.new (loc : StoreId) : Entry :=
  ⟨loc, Entry.default_header, []⟩

/-- Source `has_only_tables`: the header root must be a table whose
top-level values are all tables themselves. -/
def has_only_tables : Value → Except String Bool
  | .table tab => .ok (tab.all fun kv => kv.2.isTable)
  | _ => .error "HeaderTypeFailure"

/-- Source `has_main_section`: read the reserved `imag` key; a missing key
is an error, otherwise report whether its value is a table. -/
def has_main_section (t : Value) : Except String Bool :=
  match t.readKey "imag" with
  | .error e => .error e
  | .ok none => .error "ConfigKeyMissingError(imag)"
  | .ok (some v) => .ok v.isTable

/-- Source `has_imag_version_in_main_section`: read `imag.version` as a
string (missing key is an error) and report whether it parses as a valid
semantic version. -/
def has_imag_version_in_main_section (t : Value) : Except String Bool :=
  match t.readStringPath "imag" "version" with
  | .error e => .error e
  | .ok none => .error "ConfigKeyMissingError(imag.version)"
  | .ok (some s) => .ok (semverParses s)

/-- Source `Entry::verify`: the three header checks, in source order, each
failing with its own error. -/
def Entry.verify (e : Entry) : Except String Unit :=
  match has_main_section e.header with
  | .error err => .error err
  | .ok false => .error "MissingMainSection"
  | .ok true =>
    match has_imag_version_in_main_section e.header with
    | .error err => .error err
    | .ok false => .error "MissingVersionInfo"
    | .ok true =>
      match has_only_tables e.header with
      | .error err => .error err
      | .ok false => .error "NonTableInBaseTable"
      | .ok true => .ok ()

end Imag

namespace Imag

/-- Split a text at its first newline: the line (newline excluded) and the
rest.  Fails when the text holds no newline at all. -/
def splitNL : Text → Option (Text × Text)
  | [] => none
  | c :: r =>
    if c = '\n' then some ([], r)
    else
      match splitNL r with
      | some (l, rest) => some (c :: l, rest)
      | none => none

theorem splitNL_sound : ∀ t l r, splitNL t = some (l, r) → t = l ++ '\n' :: r := by
  intro t
  induction t with
  | nil => intro l r h; simp [splitNL] at h
  | cons c cs ih =>
    intro l r h
    simp only [splitNL] at h
    split at h
    · rename_i hc
      cases h
      simp [hc]
    · cases hr : splitNL cs with
      | none => rw [hr] at h; cases h
      | some p =>
        obtain ⟨l2, r2⟩ := p
        rw [hr] at h
        cases h
        simp [ih l2 _ hr]

theorem splitNL_length : ∀ t l r, splitNL t = some (l, r) → r.length < t.length := by
  intro t l r h
  have := splitNL_sound t l r h
  subst this
  simp
  omega

/-- Join a list of lines back into text, every line newline-terminated. -/
def joinLines (ls : List Text) : Text :=
  ls.flatMap fun l => l ++ ['\n']

/-- Split a text into newline-terminated lines, fuel-bounded so that the
recursion is structural (every step consumes at least the newline). -/
def toLinesFuel : Nat → Text → Option (List Text)
  | _, [] => some []
  | 0, _ :: _ => none
  | n + 1, t =>
    match splitNL t with
    | none => none
    | some (l, rest) =>
      match toLinesFuel n rest with
      | some ls => some (l :: ls)
      | none => none

/-- Split a text into newline-terminated lines; fails when the final line
is not newline-terminated.  The fuel bound is always sufficient. -/
def toLines (t : Text) : Option (List Text) :=
  toLinesFuel (t.length + 1) t

theorem toLinesFuel_sound :
    ∀ n t ls, toLinesFuel n t = some ls → joinLines ls = t := by
  intro n
  induction n with
  | zero =>
    intro t ls h
    cases t with
    | nil =>
      simp only [toLinesFuel] at h
      cases h
      simp [joinLines]
    | cons c cs => simp [toLinesFuel] at h
  | succ n ih =>
    intro t ls h
    cases t with
    | nil =>
      simp only [toLinesFuel] at h
      cases h
      simp [joinLines]
    | cons c cs =>
      simp only [toLinesFuel] at h
      split at h
      · cases h
      · rename_i l rest hsplit
        split at h
        · rename_i ls2 hrec
          cases h
          have hs := splitNL_sound _ _ _ hsplit
          have hj := ih rest ls2 hrec
          simp only [joinLines] at hj ⊢
          rw [hs, List.flatMap_cons, hj]
          simp
        · cases h

theorem toLines_sound : ∀ t ls, toLines t = some ls → joinLines ls = t := by
  intro t ls h
  exact toLinesFuel_sound (t.length + 1) t ls h

/-- The second front-matter delimiter, a line consisting of `---`. -/
def delimLine : Text := ['-', '-', '-']

/-- Modelled from the spec (`util.rs` is absent from the source set):
scan the text after the opening delimiter line by line for the first line
equal to `---`; the header is everything before that line, the content is
everything after it, verbatim. -/
def splitHCFuel : Nat → Text → Option (Text × Text)
  | 0, _ => none
  | n + 1, t =>
    match splitNL t with
    | none => none
    | some (l, rest) =>
      if l = delimLine then some ([], rest)
      else
        match splitHCFuel n rest with
        | some (hd, c) => some (l ++ '\n' :: hd, c)
        | none => none

/-- The fuel-sufficient wrapper for the header/content split. -/
def splitHeaderContent (t : Text) : Option (Text × Text) :=
  splitHCFuel (t.length + 1) t

theorem splitHCFuel_sound :
    ∀ n t hd c, splitHCFuel n t = some (hd, c) →
      t = hd ++ delimLine ++ '\n' :: c := by
  intro n
  induction n with
  | zero =>
    intro t hd c h
    simp [splitHCFuel] at h
  | succ n ih =>
    intro t hd c h
    simp only [splitHCFuel] at h
    split at h
    · cases h
    · rename_i l rest hsplit
      have hs := splitNL_sound _ _ _ hsplit
      split at h
      · rename_i hldelim
        cases h
        subst hldelim
        simp [hs]
      · split at h
        · rename_i hd2 c2 hrec
          cases h
          have hj := ih rest hd2 _ hrec
          rw [hs, hj]
          simp
        · cases h

theorem splitHeaderContent_sound :
    ∀ t hd c, splitHeaderContent t = some (hd, c) →
      t = hd ++ delimLine ++ '\n' :: c := by
  intro t hd c h
  exact splitHCFuel_sound (t.length + 1) t hd c h

end Imag

namespace Imag

/-- Take characters up to the first occurrence of `stop`; fails when
`stop` does not occur. -/
def takeUntil (stop : Char) : Text → Option (Text × Text)
  | [] => none
  | c :: r =>
    if c = stop then some ([], r)
    else
      match takeUntil stop r with
      | some (p, rest) => some (c :: p, rest)
      | none => none

theorem takeUntil_sound :
    ∀ stop t p rest, takeUntil stop t = some (p, rest) → t = p ++ stop :: rest := by
  intro stop t
  induction t with
  | nil => intro p rest h; simp [takeUntil] at h
  | cons c cs ih =>
    intro p rest h
    simp only [takeUntil] at h
    split at h
    · rename_i hc
      cases h
      simp [hc]
    · cases hr : takeUntil stop cs with
      | none => rw [hr] at h; cases h
      | some q =>
        obtain ⟨p2, rest2⟩ := q
        rw [hr] at h
        cases h
        simp [ih p2 _ hr]

/-- The textual form of one pretty-printed key/value line:
`key = 'value'` (without the terminating newline). -/
def kvLineText (k v : String) : Text :=
  k.data ++ [' ', '=', ' ', quoteChar] ++ v.data ++ [quoteChar]

/-- Parse one `key = 'value'` line.  The key runs to the first space, the
value is single-quoted and must end the line. -/
def parseKVLine (l : Text) : Option (String × String) :=
  match takeUntil ' ' l with
  | none => none
  | some (k, r1) =>
    match r1 with
    | c1 :: c2 :: c3 :: r =>
      if h : c1 = '=' ∧ c2 = ' ' ∧ c3 = quoteChar then
        match takeUntil quoteChar r with
        | some (v, []) => some (⟨k⟩, ⟨v⟩)
        | _ => none
      else none
    | _ => none

theorem parseKVLine_sound :
    ∀ l k v, parseKVLine l = some (k, v) → kvLineText k v = l := by
  intro l k v h
  simp only [parseKVLine] at h
  cases hk : takeUntil ' ' l with
  | none => rw [hk] at h; cases h
  | some q =>
    obtain ⟨kc, r1⟩ := q
    rw [hk] at h
    have hl := takeUntil_sound _ _ _ _ hk
    match r1, hl with
    | c1 :: c2 :: c3 :: r, hl =>
      simp only at h
      split at h
      · rename_i hc
        obtain ⟨hc1, hc2, hc3⟩ := hc
        cases hv : takeUntil quoteChar r with
        | none => rw [hv] at h; cases h
        | some q2 =>
          obtain ⟨vc, r2⟩ := q2
          rw [hv] at h
          have hr := takeUntil_sound _ _ _ _ hv
          match r2, h, hr with
          | [], h, hr =>
            simp only [Option.some.injEq, Prod.mk.injEq] at h
            obtain ⟨h1, h2⟩ := h
            subst h1 h2 hc1 hc2 hc3
            simp only [kvLineText, String.data]
            rw [hl, hr]
            simp
      · cases h

/-- The textual form of a section header line `[name]` (without the
terminating newline). -/
def sectionLineText (name : String) : Text :=
  '[' :: name.data ++ [']']

/-- Parse a `[name]` section header line. -/
def parseSectionLine (l : Text) : Option String :=
  match l with
  | [] => none
  | c :: r =>
    if c = '[' then
      match takeUntil ']' r with
      | some (name, []) => some ⟨name⟩
      | _ => none
    else none

theorem parseSectionLine_sound :
    ∀ l name, parseSectionLine l = some name → sectionLineText name = l := by
  intro l name h
  cases l with
  | nil => simp [parseSectionLine] at h
  | cons c r =>
    simp only [parseSectionLine] at h
    split at h
    · rename_i hc
      cases hn : takeUntil ']' r with
      | none => rw [hn] at h; cases h
      | some q =>
        obtain ⟨nm, rest⟩ := q
        rw [hn] at h
        have hr := takeUntil_sound _ _ _ _ hn
        match rest, h, hr with
        | [], h, hr =>
          simp only [Option.some.injEq] at h
          subst h hc
          simp only [sectionLineText, String.data]
          rw [hr]
          simp
    · cases h

end Imag

namespace Imag

/-- The lines printed for the key/value bindings of one table body (only
string bindings are representable in the textual format). -/
def kvGroupLines (kvs : List (String × Value)) : List Text :=
  kvs.flatMap fun kv =>
    match kv.2 with
    | .str v => [kvLineText kv.1 v]
    | _ => []

/-- Parse consecutive `key = 'value'` lines, stopping (without consuming)
at the first section header line or at the end of input. -/
def parseKVGroup : List Text → Option (List (String × Value) × List Text)
  | [] => some ([], [])
  | l :: ls =>
    if (parseSectionLine l).isSome then some ([], l :: ls)
    else
      match parseKVLine l with
      | none => none
      | some (k, v) =>
        match parseKVGroup ls with
        | none => none
        | some (kvs, rest) => some ((k, Value.str v) :: kvs, rest)

theorem parseKVGroup_sound :
    ∀ ls kvs rest, parseKVGroup ls = some (kvs, rest) →
      kvGroupLines kvs ++ rest = ls := by
  intro ls
  induction ls with
  | nil =>
    intro kvs rest h
    simp only [parseKVGroup] at h
    cases h
    simp [kvGroupLines]
  | cons l ls ih =>
    intro kvs rest h
    simp only [parseKVGroup] at h
    split at h
    · cases h
      simp [kvGroupLines]
    · cases hkv : parseKVLine l with
      | none => rw [hkv] at h; cases h
      | some q =>
        obtain ⟨k, v⟩ := q
        rw [hkv] at h
        cases hg : parseKVGroup ls with
        | none => rw [hg] at h; cases h
        | some q2 =>
          obtain ⟨kvs2, rest2⟩ := q2
          rw [hg] at h
          cases h
          have hline := parseKVLine_sound _ _ _ hkv
          have hrec := ih _ _ hg
          simp only [kvGroupLines, List.flatMap_cons] at hrec ⊢
          rw [hline, ← hrec]
          rfl

theorem parseKVGroup_length :
    ∀ ls kvs rest, parseKVGroup ls = some (kvs, rest) →
      rest.length ≤ ls.length := by
  intro ls kvs rest h
  have := parseKVGroup_sound ls kvs rest h
  subst this
  simp

/-- The lines printed for a list of sections: each section header line
followed by the lines of its body. -/
def sectionsLines (secs : List (String × Value)) : List Text :=
  secs.flatMap fun sec =>
    sectionLineText sec.1 ::
      (match sec.2 with
       | .table kvs => kvGroupLines kvs
       | _ => [])

/-- Parse a sequence of sections, each a `[name]` line followed by its
key/value lines, consuming the entire input; fuel-bounded so that the
recursion is structural (every step consumes the section line). -/
def parseSecsFuel : Nat → List Text → Option (List (String × Value))
  | _, [] => some []
  | 0, _ :: _ => none
  | n + 1, l :: ls =>
    match parseSectionLine l with
    | none => none
    | some name =>
      match parseKVGroup ls with
      | none => none
      | some (kvs, rest) =>
        match parseSecsFuel n rest with
        | none => none
        | some secs => some ((name, Value.table kvs) :: secs)

/-- The fuel-sufficient wrapper for the sections parser. -/
def parseSections (ls : List Text) : Option (List (String × Value)) :=
  parseSecsFuel (ls.length + 1) ls

theorem parseSecsFuel_sound :
    ∀ n ls secs, parseSecsFuel n ls = some secs →
      sectionsLines secs = ls := by
  intro n
  induction n with
  | zero =>
    intro ls secs h
    cases ls with
    | nil =>
      simp only [parseSecsFuel] at h
      cases h
      simp [sectionsLines]
    | cons a b => simp [parseSecsFuel] at h
  | succ n ih =>
    intro ls secs h
    cases ls with
    | nil =>
      simp only [parseSecsFuel] at h
      cases h
      simp [sectionsLines]
    | cons l ls2 =>
      simp only [parseSecsFuel] at h
      split at h
      · cases h
      · rename_i name hsec
        split at h
        · cases h
        · rename_i kvs rest hg
          split at h
          · cases h
          · rename_i secs2 hrec
            cases h
            have hgl := parseKVGroup_sound _ _ _ hg
            have hsl := parseSectionLine_sound _ _ hsec
            have hr := ih rest secs2 hrec
            simp only [sectionsLines, List.flatMap_cons] at hr ⊢
            rw [hsl, hr, ← hgl]
            simp

theorem parseSections_sound :
    ∀ ls secs, parseSections ls = some secs → sectionsLines secs = ls := by
  intro ls secs h
  exact parseSecsFuel_sound (ls.length + 1) ls secs h

end Imag

namespace Imag

/-- The lines printed for one top-level header item: a bare string binding
prints as a key/value line, a table prints as a section. -/
def itemLines : String × Value → List Text
  | (k, .str v) => [kvLineText k v]
  | (name, .table kvs) => sectionLineText name :: kvGroupLines kvs
  | _ => []

/-- Modelled from the spec: the pretty TOML serializer used by
`Entry::to_str` — top-level string bindings first, then one block per
section, every line newline-terminated. -/
def toml_to_string_pretty : Value → Text
  | .table items => joinLines (items.flatMap itemLines)
  | _ => []

/-- Parse a full header: leading top-level key/value lines, then sections,
consuming every line. -/
def parseHeaderLines (ls : List Text) : Option (List (String × Value)) :=
  match parseKVGroup ls with
  | none => none
  | some (top, rest) =>
    match parseSections rest with
    | none => none
    | some secs => some (top ++ secs)

/-- Modelled from the spec: parsing the front-matter text as a structured
header tree (the TOML parser used by `entry_buffer_to_header_content`). -/
def parseHeaderText (h : Text) : Option Value :=
  match toLines h with
  | none => none
  | some ls =>
    match parseHeaderLines ls with
    | none => none
    | some items => some (Value.table items)

theorem parseKVGroup_itemLines :
    ∀ ls kvs rest, parseKVGroup ls = some (kvs, rest) →
      kvs.flatMap itemLines = kvGroupLines kvs := by
  intro ls
  induction ls with
  | nil =>
    intro kvs rest h
    simp only [parseKVGroup] at h
    cases h
    simp [kvGroupLines]
  | cons l ls ih =>
    intro kvs rest h
    simp only [parseKVGroup] at h
    split at h
    · cases h
      simp [kvGroupLines]
    · cases hkv : parseKVLine l with
      | none => rw [hkv] at h; cases h
      | some q =>
        obtain ⟨k, v⟩ := q
        rw [hkv] at h
        cases hg : parseKVGroup ls with
        | none => rw [hg] at h; cases h
        | some q2 =>
          obtain ⟨kvs2, rest2⟩ := q2
          rw [hg] at h
          cases h
          have hrec := ih _ _ hg
          simp only [kvGroupLines, List.flatMap_cons] at hrec ⊢
          rw [hrec]
          rfl

theorem parseSecsFuel_itemLines :
    ∀ n ls secs, parseSecsFuel n ls = some secs →
      secs.flatMap itemLines = sectionsLines secs := by
  intro n
  induction n with
  | zero =>
    intro ls secs h
    cases ls with
    | nil =>
      simp only [parseSecsFuel] at h
      cases h
      simp [sectionsLines]
    | cons a b => simp [parseSecsFuel] at h
  | succ n ih =>
    intro ls secs h
    cases ls with
    | nil =>
      simp only [parseSecsFuel] at h
      cases h
      simp [sectionsLines]
    | cons l ls2 =>
      simp only [parseSecsFuel] at h
      split at h
      · cases h
      · rename_i name hsec
        split at h
        · cases h
        · rename_i kvs rest hg
          split at h
          · cases h
          · rename_i secs2 hrec
            cases h
            have hr := ih rest secs2 hrec
            simp only [sectionsLines, List.flatMap_cons] at hr ⊢
            rw [hr]
            rfl

theorem parseHeaderText_sound :
    ∀ h v, parseHeaderText h = some v → toml_to_string_pretty v = h := by
  intro h v hp
  simp only [parseHeaderText, parseHeaderLines] at hp
  split at hp
  · cases hp
  · rename_i ls hls
    split at hp
    · cases hp
    · rename_i items hitems
      cases hp
      split at hitems
      · cases hitems
      · rename_i top rest hg
        split at hitems
        · cases hitems
        · rename_i secs hs
          cases hitems
          have h1 := parseKVGroup_sound _ _ _ hg
          have h2 := parseSections_sound _ _ hs
          have h3 := parseKVGroup_itemLines _ _ _ hg
          have h4 := parseSecsFuel_itemLines (rest.length + 1) _ _ hs
          have h5 := toLines_sound _ _ hls
          simp only [toml_to_string_pretty]
          rw [List.flatMap_append, h3, h4, h2, ← h5]
          simp only [joinLines]
          rw [h1]

/-- Modelled from the spec (`util.rs` is absent from the source set):
`entry_buffer_to_header_content` — the buffer must open with a `---` line;
the front matter runs to the next `---` line and must parse as a header
tree; the remainder is the content, verbatim. -/
def entry_buffer_to_header_content (buf : Text) : Option (Value × Text) :=
  match splitNL buf with
  | none => none
  | some (l0, rest) =>
    if l0 = delimLine then
      match splitHeaderContent rest with
      | none => none
      | some (hd, c) =>
        match parseHeaderText hd with
        | none => none
        | some v => some (v, c)
    else none

/-- Source `Entry::from_str`: split the buffer into header and content and
build the entry at the given location. -/
def Entry.from_str (loc : StoreId) (buf : Text) : Option Entry :=
  match entry_buffer_to_header_content buf with
  | none => none
  | some (v, c) => some ⟨loc, v, c⟩

/-- Source `Entry::to_str`: the opening delimiter line, the pretty-printed
header, the closing delimiter line, then the content verbatim. -/
def Entry.to_str (e : Entry) : Text :=
  delimLine ++ '\n' :: (toml_to_string_pretty e.header ++ delimLine ++ '\n' :: e.content)

end Imag

namespace Imag

/-- Source `StoreEntryStatus`: a cache slot is either `Present` (held by
nobody) or `Borrowed` (one outstanding handle). -/
inductive SlotStatus where
  | present
  | borrowed
deriving DecidableEq, Repr

/-- Source `StoreEntry` (cache slot): the id it was created for and its
borrow status.  The backend handle carries no state of its own in the
in-memory model beyond the id-derived path. -/
structure CacheSlot where
  id : StoreId
  status : SlotStatus
deriving DecidableEq

/-- Source `StoreEntry::is_borrowed`, lifted to an optional slot as in
`map(|e| e.is_borrowed()).unwrap_or(false)`. -/
def slotIsBorrowed (o : Option CacheSlot) : Bool :=
  match o with
  | some sl => decide (sl.status = SlotStatus.borrowed)
  | none => false

/-- Remove a key from an association list. -/
def alistErase {κ α : Type} [DecidableEq κ] (m : List (κ × α)) (k : κ) : List (κ × α) :=
  m.filter fun kv => decide (kv.1 ≠ k)

/-- Look a key up in an association list. -/
def alistLookup {κ α : Type} [DecidableEq κ] (m : List (κ × α)) (k : κ) : Option α :=
  match m with
  | [] => none
  | kv :: r => if kv.1 = k then some kv.2 else alistLookup r k

/-- Insert (or overwrite) a key in an association list. -/
def alistInsert {κ α : Type} [DecidableEq κ] (m : List (κ × α)) (k : κ) (v : α) :
    List (κ × α) :=
  (k, v) :: alistErase m k

theorem alistLookup_erase_self {κ α : Type} [DecidableEq κ]
    (m : List (κ × α)) (k : κ) : alistLookup (alistErase m k) k = none := by
  induction m with
  | nil => rfl
  | cons kv r ih =>
    simp only [alistErase, List.filter] at *
    split
    · rename_i hkv
      simp only [decide_eq_true_eq] at hkv
      simp only [alistLookup]
      rw [if_neg hkv]
      exact ih
    · exact ih

theorem alistLookup_erase_ne {κ α : Type} [DecidableEq κ]
    (m : List (κ × α)) (k k2 : κ) (hne : k2 ≠ k) :
    alistLookup (alistErase m k) k2 = alistLookup m k2 := by
  induction m with
  | nil => rfl
  | cons kv r ih =>
    simp only [alistErase, List.filter, alistLookup] at *
    split
    · rename_i hkv
      simp only [alistLookup]
      split
      · rfl
      · exact ih
    · rename_i hkv
      simp at hkv
      split
      · rename_i hk2
        rw [hkv] at hk2
        exact absurd hk2.symm hne
      · exact ih

theorem alistLookup_insert_self {κ α : Type} [DecidableEq κ]
    (m : List (κ × α)) (k : κ) (v : α) :
    alistLookup (alistInsert m k v) k = some v := by
  simp [alistInsert, alistLookup]

theorem alistLookup_insert_ne {κ α : Type} [DecidableEq κ]
    (m : List (κ × α)) (k k2 : κ) (v : α) (hne : k2 ≠ k) :
    alistLookup (alistInsert m k v) k2 = alistLookup m k2 := by
  simp only [alistInsert, alistLookup]
  rw [if_neg (fun hh => hne hh.symm)]
  exact alistLookup_erase_ne m k k2 hne

/-- Source `Store`: the store root, the cache map and the backend.  The
backend is the in-memory one (modelled from the spec: a path-keyed map of
entries; `file_abstraction/` is absent from the source set). -/
structure Store where
  location : FsPath
  entries : List (StoreId × CacheSlot)
  backend : List (FsPath × Entry)

/-- The full filesystem path of an id inside a store
(`id.with_base(store.path()).into_pathbuf()`). -/
def Store.pathOf (s : Store) (id : StoreId) : FsPath :=
  withBaseIntoPathbuf s.location id.path

/-- Modelled from the spec: the in-memory backend existence check. -/
def Store.backendHas (s : Store) (p : FsPath) : Bool :=
  (alistLookup s.backend p).isSome

/-- Source `Store::exists`: the cache map has the id, or the backend has
the corresponding file. -/
def Store.fileExists (s : Store) (id : StoreId) : Bool :=
  (alistLookup s.entries id).isSome || s.backendHas (s.pathOf id)

/-- Source `Store::create`: fail `EntryAlreadyExists` when `exists()`
reports the id (cache or backend); re-check the cache under the write
lock; otherwise insert a Borrowed slot and hand out a fresh default
entry. -/
def Store.create (s : Store) (id : StoreId) : Except String Entry × Store :=
  if s.fileExists id then (.error "EntryAlreadyExists", s)
  else if (alistLookup s.entries id).isSome then (.error "EntryAlreadyExists", s)
  else (.ok (Entry.new id), { s with entries := alistInsert s.entries id ⟨id, .borrowed⟩ })

/-- Source `StoreEntry::get_entry` for a non-borrowed slot: the backend
content when present, otherwise a fresh default entry. -/
def Store.readOrDefault (s : Store) (id : StoreId) : Entry :=
  match alistLookup s.backend (s.pathOf id) with
  | some f => f
  | none => Entry.new id

/-- Source `Store::retrieve`: take (or lazily insert) the slot for the id,
fail when it is already Borrowed, otherwise read the entry (backend
content or fresh default) and mark the slot Borrowed. -/
def Store.retrieve (s : Store) (id : StoreId) : Except String Entry × Store :=
  match alistLookup s.entries id with
  | some slot =>
    if slot.status = .borrowed then (.error "EntryAlreadyBorrowed", s)
    else (.ok (s.readOrDefault id),
          { s with entries := alistInsert s.entries id ⟨slot.id, .borrowed⟩ })
  | none =>
    (.ok (s.readOrDefault id),
     { s with entries := alistInsert s.entries id ⟨id, .borrowed⟩ })

/-- Source `Store::get`: `Ok(None)` when neither the cache nor the backend
has the id, otherwise `retrieve`. -/
def Store.get (s : Store) (id : StoreId) : Except String (Option Entry) × Store :=
  if !s.fileExists id then (.ok none, s)
  else
    match s.retrieve id with
    | (.ok e, s2) => (.ok (some e), s2)
    | (.error msg, s2) => (.error msg, s2)

/-- Source `Store::_update`: find the slot (error when absent), assert it
is Borrowed (a programmer contract violation is modelled as its own
error), verify the entry, write it through the backend, and when
`modify_presence` holds flip the slot back to Present. -/
def Store.updateInternal (s : Store) (e : Entry) (modifyPresence : Bool) :
    Except String Unit × Store :=
  match alistLookup s.entries e.location with
  | none => (.error "EntryNotFound", s)
  | some slot =>
    if slot.status ≠ .borrowed then (.error "AssertNonBorrowedUpdate", s)
    else
      match e.verify with
      | .error msg => (.error msg, s)
      | .ok _ =>
        let s2 : Store := { s with backend := alistInsert s.backend (s.pathOf e.location) e }
        if modifyPresence then
          (.ok (), { s2 with entries := alistInsert s2.entries e.location ⟨slot.id, .present⟩ })
        else (.ok (), s2)

/-- Source `FileLockEntry::drop` (release): write back through
`_update(.., true)`. -/
def Store.release (s : Store) (e : Entry) : Except String Unit × Store :=
  s.updateInternal e true

/-- Source `Store::delete`: a Borrowed cached slot is a lock error; an id
absent from cache and backend is `FileNotFound`; otherwise drop the cache
slot (when present) and remove the backend file. -/
def Store.delete (s : Store) (id : StoreId) : Except String Unit × Store :=
  let pb := s.pathOf id
  match alistLookup s.entries id with
  | some slot =>
    if slot.status = .borrowed then (.error "LockError", s)
    else
      let s2 : Store := { s with entries := alistErase s.entries id }
      if s2.backendHas pb then
        (.ok (), { s2 with backend := alistErase s2.backend pb })
      else (.error "FileError", s2)
  | none =>
    if !(s.backendHas pb) then (.error "FileNotFound", s)
    else (.ok (), { s with backend := alistErase s.backend pb })

/-- Source `Store::flush_cache`: evict every non-borrowed slot. -/
def Store.flush_cache (s : Store) : Except String Unit × Store :=
  (.ok (), { s with entries := s.entries.filter fun kv => decide (kv.2.status = SlotStatus.borrowed) })

/-- Source `Store::cache_size`: the number of elements in the cache map. -/
def Store.cache_size (s : Store) : Nat :=
  s.entries.length

/-- Source `Store::get_copy`: a Borrowed slot is `IdLocked`; otherwise a
fresh (uncached) backend handle is read — backend content or default
entry — and the cache map is never touched. -/
def Store.get_copy (s : Store) (id : StoreId) : Except String Entry × Store :=
  if slotIsBorrowed (alistLookup s.entries id) then
    (.error "IdLocked", s)
  else (.ok (s.readOrDefault id), s)

/-- Source `Store::move_by_id`: fail when the new id is cached, when the
old slot is Borrowed, or when the backend already has the new path; rename
at the backend, then re-key the cache slot (updating its stored id). -/
def Store.move_by_id (s : Store) (oldId newId : StoreId) : Except String Unit × Store :=
  if (alistLookup s.entries newId).isSome then (.error "EntryAlreadyExists", s)
  else if slotIsBorrowed (alistLookup s.entries oldId) then
    (.error "EntryAlreadyBorrowed", s)
  else
    let oldPb := s.pathOf oldId
    let newPb := s.pathOf newId
    if s.backendHas newPb then (.error "EntryAlreadyExists", s)
    else
      match alistLookup s.backend oldPb with
      | none => (.error "RenameError", s)
      | some f =>
        let s2 : Store := { s with backend := alistInsert (alistErase s.backend oldPb) newPb f }
        match alistLookup s2.entries oldId with
        | none => (.ok (), s2)
        | some slot =>
          let es := alistInsert (alistErase s2.entries oldId) newId ⟨newId, slot.status⟩
          (.ok (), { s2 with entries := es })

/-- Source `Store::save_to_other_location`: fail when the new id is in the
cache map (the backend is not consulted); copy the backend file of the
handle's location to the new path, then optionally remove the original. -/
def Store.save_to_other_location (s : Store) (e : Entry) (newId : StoreId)
    (removeOld : Bool) : Except String Unit × Store :=
  if (alistLookup s.entries newId).isSome then (.error "EntryAlreadyExists", s)
  else
    let oldPb := s.pathOf e.location
    let newPb := s.pathOf newId
    match alistLookup s.backend oldPb with
    | none => (.error "FileError", s)
    | some f =>
      let s2 : Store := { s with backend := alistInsert s.backend newPb f }
      if removeOld then
        (.ok (), { s2 with backend := alistErase s2.backend oldPb })
      else (.ok (), s2)

/-- Source `Store::save_to`: copy without removing the original. -/
def Store.save_to (s : Store) (e : Entry) (newId : StoreId) : Except String Unit × Store :=
  s.save_to_other_location e newId false

/-- Source `Store::save_as`: copy, then remove the original. -/
def Store.save_as (s : Store) (e : Entry) (newId : StoreId) : Except String Unit × Store :=
  s.save_to_other_location e newId true

end Imag

namespace Imag

/-- C9: `StoreId::new(path)` fails exactly when the input path is
absolute; on success the constructed StoreId wraps the input path
unchanged, hence is a relative path (normalization is inherent to the
component-list path model). -/
theorem storeid_new_spec (p : FsPath) :
    (p.absolute = true → StoreId.new p = .error "Store Id local part is absolute") ∧
    (p.absolute = false → StoreId.new p = .ok ⟨p⟩) := by
  constructor <;> intro h <;> simp [StoreId.new, h]

theorem storeid_new_spec_witness :
    StoreId.new ⟨true, [Component.normal "a"]⟩ = .error "Store Id local part is absolute" ∧
    StoreId.new ⟨false, [Component.normal "a"]⟩ = .ok ⟨⟨false, [Component.normal "a"]⟩⟩ :=
  ⟨(storeid_new_spec ⟨true, [Component.normal "a"]⟩).1 rfl,
   (storeid_new_spec ⟨false, [Component.normal "a"]⟩).2 rfl⟩

theorem zip_all_matches (cs : List Component) (ns : List String) :
    ((cs.zip ns).all fun cn => componentMatchesName cn.1 cn.2) = true ↔
      ∀ i, (h1 : i < cs.length) → (h2 : i < ns.length) →
        componentMatchesName (cs.get ⟨i, h1⟩) (ns.get ⟨i, h2⟩) = true := by
  induction cs generalizing ns with
  | nil =>
    cases ns <;> simp
  | cons c cs ih =>
    cases ns with
    | nil => simp
    | cons n ns =>
      simp only [List.zip_cons_cons, List.all_cons, Bool.and_eq_true]
      constructor
      · rintro ⟨h0, hrest⟩ i h1 h2
        cases i with
        | zero => exact h0
        | succ j =>
          exact (ih ns).mp hrest j (by simpa using h1) (by simpa using h2)
      · intro hall
        refine ⟨hall 0 (by simp) (by simp), (ih ns).mpr ?_⟩
        intro j h1 h2
        exact hall (j + 1) (by simpa using h1) (by simpa using h2)

/-- C4 counterexample: the claimed characterisation — true iff the first
N components exactly equal the N given names — fails on the id `a` with
names `["a", "b"]`: `zip` truncates to the id length, so the code returns
true although the id has no second component. -/
theorem is_in_collection_claim_cex :
    ¬ ((StoreId.mk ⟨false, [Component.normal "a"]⟩).is_in_collection ["a", "b"] = true ↔
       (StoreId.mk ⟨false, [Component.normal "a"]⟩).path.comps.take 2 =
         [Component.normal "a", Component.normal "b"]) := by
  decide

/-- C4 (amended): `is_in_collection(names)` is true iff every component
position below the minimum of the id length and N matches the
corresponding name as a normal segment — so it is true for every ordered
prefix of the component chain (and also when the names extend beyond the
id), and false for any mismatched, truncated-in-the-middle or special
component within the compared range. -/
theorem is_in_collection_spec (id : StoreId) (colls : List String) :
    id.is_in_collection colls = true ↔
      ∀ i, (h1 : i < id.path.comps.length) → (h2 : i < colls.length) →
        componentMatchesName (id.path.comps.get ⟨i, h1⟩) (colls.get ⟨i, h2⟩) = true := by
  exact zip_all_matches id.path.comps colls

theorem is_in_collection_spec_witness :
    (StoreId.mk ⟨false, [Component.normal "x", Component.normal "y"]⟩).is_in_collection
      ["x"] = true :=
  (is_in_collection_spec ⟨⟨false, [Component.normal "x", Component.normal "y"]⟩⟩
    ["x"]).mpr (by decide)

end Imag

namespace Imag

/-- C8: with a table-rooted header, `verify()` fails with the
key-missing error when the reserved `imag` section is absent, fails with
`MissingVersionInfo` when the version string is not a valid semantic
version, fails with `NonTableInBaseTable` when some top-level entry is not
a table, and succeeds when the reserved section is a table holding a valid
semantic version string and every top-level entry is a table. -/
theorem entry_verify_spec (e : Entry) (t : List (String × Value))
    (hh : e.header = Value.table t) :
    (tableLookup t "imag" = none → e.verify = .error "ConfigKeyMissingError(imag)") ∧
    (∀ m ver, tableLookup t "imag" = some (Value.table m) →
      tableLookup m "version" = some (Value.str ver) → semverParses ver = false →
      e.verify = .error "MissingVersionInfo") ∧
    (∀ m ver, tableLookup t "imag" = some (Value.table m) →
      tableLookup m "version" = some (Value.str ver) → semverParses ver = true →
      (t.all fun kv => kv.2.isTable) = false →
      e.verify = .error "NonTableInBaseTable") ∧
    (∀ m ver, tableLookup t "imag" = some (Value.table m) →
      tableLookup m "version" = some (Value.str ver) → semverParses ver = true →
      (t.all fun kv => kv.2.isTable) = true →
      e.verify = .ok ()) := by
  refine ⟨?_, ?_, ?_, ?_⟩
  · intro hmiss
    simp [Entry.verify, has_main_section, Value.readKey, hh, hmiss]
  · intro m ver h1 h2 h3
    simp [Entry.verify, has_main_section, has_imag_version_in_main_section,
          Value.readKey, Value.readStringPath, Value.isTable, hh, h1, h2, h3]
  · intro m ver h1 h2 h3 h4
    simp only [Value.isTable] at h4
    simp [Entry.verify, has_main_section, has_imag_version_in_main_section,
          has_only_tables, Value.readKey, Value.readStringPath, Value.isTable,
          hh, h1, h2, h3, h4]
  · intro m ver h1 h2 h3 h4
    simp only [Value.isTable] at h4
    simp [Entry.verify, has_main_section, has_imag_version_in_main_section,
          has_only_tables, Value.readKey, Value.readStringPath, Value.isTable,
          hh, h1, h2, h3, h4]

theorem entry_verify_spec_witness :
    (Entry.mk ⟨⟨false, [Component.normal "v"]⟩⟩
      (Value.table [("other", Value.table [])]) []).verify =
        .error "ConfigKeyMissingError(imag)" ∧
    (Entry.mk ⟨⟨false, [Component.normal "v"]⟩⟩
      (Value.table [("imag", Value.table [("version", Value.str "oops")])]) []).verify =
        .error "MissingVersionInfo" ∧
    (Entry.mk ⟨⟨false, [Component.normal "v"]⟩⟩
      (Value.table [("imag", Value.table [("version", Value.str "0.1.0")]),
                    ("scalar", Value.boolean true)]) []).verify =
        .error "NonTableInBaseTable" ∧
    (Entry.mk ⟨⟨false, [Component.normal "v"]⟩⟩
      (Value.table [("imag", Value.table [("version", Value.str "0.1.0")])]) []).verify =
        .ok () := by
  refine ⟨?_, ?_, ?_, ?_⟩
  · exact (entry_verify_spec _ [("other", Value.table [])] rfl).1 rfl
  · exact (entry_verify_spec _ [("imag", Value.table [("version", Value.str "oops")])]
      rfl).2.1 [("version", Value.str "oops")] "oops" rfl rfl rfl
  · exact (entry_verify_spec _ [("imag", Value.table [("version", Value.str "0.1.0")]),
        ("scalar", Value.boolean true)] rfl).2.2.1
      [("version", Value.str "0.1.0")] "0.1.0" rfl rfl rfl rfl
  · exact (entry_verify_spec _ [("imag", Value.table [("version", Value.str "0.1.0")])]
      rfl).2.2.2 [("version", Value.str "0.1.0")] "0.1.0" rfl rfl rfl rfl

end Imag

namespace Imag

/-- C1: for every buffer from which `Entry::from_str` succeeds, `to_str`
on the parsed entry reproduces the buffer byte-for-byte — the content part,
including any trailing blank lines, is carried verbatim, and the
pretty-printed header reproduces the parsed front matter exactly. -/
theorem entry_roundtrip (loc : StoreId) (b : Text) (e : Entry)
    (h : Entry.from_str loc b = some e) : e.to_str = b := by
  simp only [Entry.from_str] at h
  cases hb : entry_buffer_to_header_content b with
  | none => rw [hb] at h; cases h
  | some q =>
    obtain ⟨v, c⟩ := q
    rw [hb] at h
    cases h
    simp only [entry_buffer_to_header_content] at hb
    split at hb
    · cases hb
    · rename_i l0 rest hnl
      split at hb
      · rename_i hl0
        split at hb
        · cases hb
        · rename_i hd c2 hsp
          split at hb
          · cases hb
          · rename_i v2 hp
            cases hb
            have h1 := splitNL_sound _ _ _ hnl
            have h2 := splitHeaderContent_sound _ _ _ hsp
            have h3 := parseHeaderText_sound _ _ hp
            simp only [Entry.to_str]
            rw [h3, h1, hl0, h2]
      · cases hb

/-- The location used by the roundtrip witness. -/
def rtLoc : StoreId := ⟨⟨false, [Component.normal "test", Component.normal "foo"]⟩⟩

/-- The witness buffer: front matter with an `imag` section and a content
part ending in two trailing blank lines. -/
def rtBuf : Text :=
  "---\n[imag]\nversion = ".data ++ [quoteChar] ++ "0.0.3".data ++ [quoteChar]
    ++ "\n---\nHai\n\n".data

/-- The entry the witness buffer parses to. -/
def rtEntry : Entry :=
  ⟨rtLoc, Value.table [("imag", Value.table [("version", Value.str "0.0.3")])],
   "Hai\n\n".data⟩

theorem entry_roundtrip_witness :
    Entry.from_str rtLoc rtBuf = some rtEntry ∧ rtEntry.to_str = rtBuf :=
  ⟨rfl, entry_roundtrip rtLoc rtBuf rtEntry rfl⟩

end Imag

namespace Imag

/-- C2: `create(id)` fails with `EntryAlreadyExists` exactly when the id
is present in the cache map or in the backend, leaving the store
unchanged; otherwise it succeeds, inserting a Borrowed slot keyed by the
id and handing out a fresh default entry; in particular a second `create`
of the same id right after a successful one fails with
`EntryAlreadyExists`. -/
theorem store_create_spec (s : Store) (id : StoreId) :
    (((alistLookup s.entries id).isSome || s.backendHas (s.pathOf id)) = true →
      s.create id = (.error "EntryAlreadyExists", s)) ∧
    (((alistLookup s.entries id).isSome || s.backendHas (s.pathOf id)) = false →
      s.create id =
        (.ok (Entry.new id),
         { s with entries := alistInsert s.entries id ⟨id, .borrowed⟩ })) ∧
    (((alistLookup s.entries id).isSome || s.backendHas (s.pathOf id)) = false →
      ((s.create id).2.create id).1 = .error "EntryAlreadyExists") := by
  refine ⟨?_, ?_, ?_⟩
  · intro hex
    simp [Store.create, Store.fileExists, hex]
  · intro hex
    simp only [Bool.or_eq_false_iff] at hex
    simp [Store.create, Store.fileExists, hex.1, hex.2]
  · intro hex
    simp only [Bool.or_eq_false_iff] at hex
    simp [Store.create, Store.fileExists, hex.1, hex.2,
          alistLookup_insert_self]

theorem store_create_spec_witness :
    ((Store.mk ⟨true, []⟩ [] []).create ⟨⟨false, [Component.normal "w"]⟩⟩).1 =
        .ok (Entry.new ⟨⟨false, [Component.normal "w"]⟩⟩) ∧
    (((Store.mk ⟨true, []⟩ [] []).create
        ⟨⟨false, [Component.normal "w"]⟩⟩).2.create
        ⟨⟨false, [Component.normal "w"]⟩⟩).1 = .error "EntryAlreadyExists" := by
  constructor
  · rw [(store_create_spec (Store.mk ⟨true, []⟩ [] [])
      ⟨⟨false, [Component.normal "w"]⟩⟩).2.1 rfl]
  · exact (store_create_spec (Store.mk ⟨true, []⟩ [] [])
      ⟨⟨false, [Component.normal "w"]⟩⟩).2.2 rfl

/-- C10: `get_copy(id)` fails with `IdLocked` exactly when the cache slot
for the id is currently Borrowed; otherwise it returns the backend content
for the id, or a fresh default entry when the backend has none; in every
case the store state — in particular the cache map — is left completely
unchanged. -/
theorem get_copy_spec (s : Store) (id : StoreId) :
    (slotIsBorrowed (alistLookup s.entries id) = true →
      (s.get_copy id).1 = .error "IdLocked") ∧
    (slotIsBorrowed (alistLookup s.entries id) = false →
      ∀ f, alistLookup s.backend (s.pathOf id) = some f →
        (s.get_copy id).1 = .ok f) ∧
    (slotIsBorrowed (alistLookup s.entries id) = false →
      alistLookup s.backend (s.pathOf id) = none →
        (s.get_copy id).1 = .ok (Entry.new id)) ∧
    (s.get_copy id).2 = s := by
  refine ⟨?_, ?_, ?_, ?_⟩
  · intro hbor
    simp [Store.get_copy, hbor]
  · intro hbor f hf
    simp [Store.get_copy, Store.readOrDefault, hbor, hf]
  · intro hbor hf
    simp [Store.get_copy, Store.readOrDefault, hbor, hf]
  · simp only [Store.get_copy]
    split <;> rfl

theorem get_copy_spec_witness :
    ((Store.mk ⟨true, []⟩
        [(⟨⟨false, [Component.normal "w"]⟩⟩, ⟨⟨⟨false, [Component.normal "w"]⟩⟩, .borrowed⟩)]
        []).get_copy ⟨⟨false, [Component.normal "w"]⟩⟩).1 = .error "IdLocked" ∧
    ((Store.mk ⟨true, []⟩ [] []).get_copy ⟨⟨false, [Component.normal "w"]⟩⟩).1 =
      .ok (Entry.new ⟨⟨false, [Component.normal "w"]⟩⟩) :=
  ⟨(get_copy_spec _ ⟨⟨false, [Component.normal "w"]⟩⟩).1 rfl,
   (get_copy_spec (Store.mk ⟨true, []⟩ [] []) ⟨⟨false, [Component.normal "w"]⟩⟩).2.2.1
     rfl rfl⟩

end Imag

namespace Imag

theorem alistLookup_eq_none_of_not_mem {κ α : Type} [DecidableEq κ]
    (m : List (κ × α)) (k : κ) (h : k ∉ m.map Prod.fst) :
    alistLookup m k = none := by
  induction m with
  | nil => rfl
  | cons kv r ih =>
    simp only [List.map_cons, List.mem_cons] at h
    push_neg at h
    simp only [alistLookup]
    rw [if_neg (fun hh => h.1 hh.symm)]
    exact ih h.2

theorem alistLookup_filter_borrowed
    (m : List (StoreId × CacheSlot)) (id : StoreId) (sl : CacheSlot)
    (hwf : (m.map Prod.fst).Nodup) (hl : alistLookup m id = some sl) :
    alistLookup (m.filter fun kv => decide (kv.2.status = SlotStatus.borrowed)) id =
      (if sl.status = SlotStatus.borrowed then some sl else none) := by
  induction m with
  | nil => simp [alistLookup] at hl
  | cons kv r ih =>
    simp only [List.map_cons, List.nodup_cons] at hwf
    simp only [alistLookup] at hl
    by_cases hk : kv.1 = id
    · rw [if_pos hk] at hl
      have hv : kv.2 = sl := by injection hl
      by_cases hbor : sl.status = SlotStatus.borrowed
      · rw [if_pos hbor]
        simp only [List.filter_cons, hv, hbor]
        simp [alistLookup, hk, hv]
      · rw [if_neg hbor]
        simp only [List.filter_cons, hv]
        have hfalse : decide (sl.status = SlotStatus.borrowed) = false := by
          simp [hbor]
        rw [hfalse]
        apply alistLookup_eq_none_of_not_mem
        intro hmem
        apply hwf.1
        have hsub : id ∈ (r.filter fun kv =>
            decide (kv.2.status = SlotStatus.borrowed)).map Prod.fst →
            id ∈ r.map Prod.fst := by
          intro hx
          simp only [List.mem_map] at hx ⊢
          obtain ⟨p, hp, hpe⟩ := hx
          exact ⟨p, List.mem_of_mem_filter hp, hpe⟩
        rw [hk]
        exact hsub hmem
    · rw [if_neg hk] at hl
      simp only [List.filter_cons]
      cases hdec : decide (kv.2.status = SlotStatus.borrowed) with
      | true =>
        simp only [alistLookup]
        rw [if_neg hk]
        exact ih hwf.2 hl
      | false =>
        exact ih hwf.2 hl

/-- C7: `flush_cache` succeeds, removes exactly the Present slots from the
cache map and never removes a Borrowed one (so entries created and still
borrowed all remain cached), leaves the backend untouched, and when every
slot is Present (all borrows released) the cache size afterwards is 0. -/
theorem flush_cache_spec (s : Store) (hwf : (s.entries.map Prod.fst).Nodup) :
    (s.flush_cache).1 = .ok () ∧
    (∀ id sl, alistLookup s.entries id = some sl → sl.status = SlotStatus.borrowed →
      alistLookup (s.flush_cache).2.entries id = some sl) ∧
    (∀ id sl, alistLookup s.entries id = some sl → sl.status = SlotStatus.present →
      alistLookup (s.flush_cache).2.entries id = none) ∧
    ((∀ kv ∈ s.entries, kv.2.status = SlotStatus.present) →
      (s.flush_cache).2.cache_size = 0) ∧
    (s.flush_cache).2.backend = s.backend := by
  refine ⟨rfl, ?_, ?_, ?_, rfl⟩
  · intro id sl hl hbor
    have := alistLookup_filter_borrowed s.entries id sl hwf hl
    simp only [Store.flush_cache]
    rw [this, if_pos hbor]
  · intro id sl hl hpres
    have := alistLookup_filter_borrowed s.entries id sl hwf hl
    simp only [Store.flush_cache]
    rw [this, if_neg (by rw [hpres]; intro hx; cases hx)]
  · intro hall
    simp only [Store.flush_cache, Store.cache_size]
    simp only [List.length_eq_zero, List.filter_eq_nil_iff]
    intro kv hkv
    rw [hall kv hkv]
    simp

theorem flush_cache_spec_witness :
    (((Store.mk ⟨true, []⟩
        [(⟨⟨false, [Component.normal "u"]⟩⟩, ⟨⟨⟨false, [Component.normal "u"]⟩⟩, .borrowed⟩),
         (⟨⟨false, [Component.normal "v"]⟩⟩, ⟨⟨⟨false, [Component.normal "v"]⟩⟩, .present⟩)]
        []).flush_cache).2.entries =
      [(⟨⟨false, [Component.normal "u"]⟩⟩, ⟨⟨⟨false, [Component.normal "u"]⟩⟩, .borrowed⟩)]) ∧
    alistLookup ((Store.mk ⟨true, []⟩
        [(⟨⟨false, [Component.normal "u"]⟩⟩, ⟨⟨⟨false, [Component.normal "u"]⟩⟩, .borrowed⟩),
         (⟨⟨false, [Component.normal "v"]⟩⟩, ⟨⟨⟨false, [Component.normal "v"]⟩⟩, .present⟩)]
        []).flush_cache).2.entries ⟨⟨false, [Component.normal "u"]⟩⟩ =
      some ⟨⟨⟨false, [Component.normal "u"]⟩⟩, .borrowed⟩ ∧
    ((Store.mk ⟨true, []⟩
        [(⟨⟨false, [Component.normal "v"]⟩⟩, ⟨⟨⟨false, [Component.normal "v"]⟩⟩, .present⟩)]
        []).flush_cache).2.cache_size = 0 := by
  refine ⟨rfl, ?_, ?_⟩
  · exact (flush_cache_spec _ (by decide)).2.1 ⟨⟨false, [Component.normal "u"]⟩⟩
      ⟨⟨⟨false, [Component.normal "u"]⟩⟩, .borrowed⟩ rfl rfl
  · exact (flush_cache_spec _ (by decide)).2.2.2.1 (by decide)

end Imag

namespace Imag

theorem entry_new_location (id : StoreId) : (Entry.new id).location = id := rfl

theorem entry_new_verify (id : StoreId) : (Entry.new id).verify = .ok () := rfl

/-- C3: for an id absent from cache and backend, `get` returns `Ok(None)`
without touching the store and `delete` fails `FileNotFound`; after a
successful `create` and a release of the handle, `get` returns
`Ok(Some(_))` and `delete` succeeds; after that delete, `get` returns
`Ok(None)` again. -/
theorem store_get_delete_lifecycle (s : Store) (id : StoreId)
    (hc : alistLookup s.entries id = none)
    (hb : alistLookup s.backend (s.pathOf id) = none) :
    s.get id = (.ok none, s) ∧
    s.delete id = (.error "FileNotFound", s) ∧
    (s.create id).1 = .ok (Entry.new id) ∧
    ((s.create id).2.release (Entry.new id)).1 = .ok () ∧
    ((((s.create id).2.release (Entry.new id)).2.get id).1 = .ok (some (Entry.new id))) ∧
    ((((s.create id).2.release (Entry.new id)).2.delete id).1 = .ok ()) ∧
    (((((s.create id).2.release (Entry.new id)).2.delete id).2.get id).1 = .ok none) := by
  simp only [Store.pathOf] at hb
  have hfe : s.fileExists id = false := by
    simp [Store.fileExists, Store.backendHas, Store.pathOf, hc, hb]
  have hget : s.get id = (.ok none, s) := by
    simp [Store.get, hfe]
  have hdel0 : s.delete id = (.error "FileNotFound", s) := by
    simp [Store.delete, Store.backendHas, Store.pathOf, hc, hb]
  have hcr : s.create id =
      (.ok (Entry.new id),
       { s with entries := alistInsert s.entries id ⟨id, .borrowed⟩ }) := by
    simp [Store.create, hfe, hc]
  have hrel : ((s.create id).2.release (Entry.new id)) =
      (.ok (),
       { s with
         entries := alistInsert (alistInsert s.entries id ⟨id, .borrowed⟩) id ⟨id, .present⟩,
         backend := alistInsert s.backend (withBaseIntoPathbuf s.location id.path)
           (Entry.new id) }) := by
    rw [hcr]
    simp [Store.release, Store.updateInternal, Store.pathOf, entry_new_location,
          entry_new_verify, alistLookup_insert_self]
  have hget2 : (((s.create id).2.release (Entry.new id)).2.get id).1 =
      .ok (some (Entry.new id)) := by
    rw [hrel]
    simp [Store.get, Store.retrieve, Store.readOrDefault, Store.fileExists,
          Store.backendHas, Store.pathOf, alistLookup_insert_self]
  have hdel2 : (((s.create id).2.release (Entry.new id)).2.delete id) =
      (.ok (),
       { s with
         entries := alistErase
           (alistInsert (alistInsert s.entries id ⟨id, .borrowed⟩) id ⟨id, .present⟩) id,
         backend := alistErase
           (alistInsert s.backend (withBaseIntoPathbuf s.location id.path) (Entry.new id))
           (withBaseIntoPathbuf s.location id.path) }) := by
    rw [hrel]
    simp [Store.delete, Store.backendHas, Store.pathOf, alistLookup_insert_self]
  have hget3 : ((((s.create id).2.release (Entry.new id)).2.delete id).2.get id).1 =
      .ok none := by
    rw [hdel2]
    simp [Store.get, Store.fileExists, Store.backendHas, Store.pathOf,
          alistLookup_erase_self]
  exact ⟨hget, hdel0, by rw [hcr], by rw [hrel], hget2, by rw [hdel2], hget3⟩

theorem store_get_delete_lifecycle_witness :
    ((Store.mk ⟨true, []⟩ [] []).get ⟨⟨false, [Component.normal "w"]⟩⟩).1 = .ok none ∧
    ((Store.mk ⟨true, []⟩ [] []).delete ⟨⟨false, [Component.normal "w"]⟩⟩).1 =
      .error "FileNotFound" ∧
    ((((Store.mk ⟨true, []⟩ [] []).create ⟨⟨false, [Component.normal "w"]⟩⟩).2.release
        (Entry.new ⟨⟨false, [Component.normal "w"]⟩⟩)).2.get
        ⟨⟨false, [Component.normal "w"]⟩⟩).1 =
      .ok (some (Entry.new ⟨⟨false, [Component.normal "w"]⟩⟩)) := by
  have h := store_get_delete_lifecycle (Store.mk ⟨true, []⟩ [] [])
    ⟨⟨false, [Component.normal "w"]⟩⟩ rfl rfl
  exact ⟨by rw [h.1], by rw [h.2.1], h.2.2.2.2.1⟩

end Imag

namespace Imag

/-- C5: `move_by_id(old, new)` fails whenever the new id is already
present (cache map or backend) and whenever the old slot is Borrowed; any
failing move leaves the whole store state unchanged; and after a
successful `create(old)`, a release, and a `move_by_id(old, new)` to a
fresh distinct id, `get(old)` yields `Ok(None)` while `get(new)` yields
`Ok(Some(_))`. -/
theorem store_move_by_id_spec (s : Store) (oldId newId : StoreId) :
    (∀ msg, (s.move_by_id oldId newId).1 = .error msg →
      (s.move_by_id oldId newId).2 = s) ∧
    (((alistLookup s.entries newId).isSome || s.backendHas (s.pathOf newId)) = true →
      ∃ msg, (s.move_by_id oldId newId).1 = .error msg) ∧
    (slotIsBorrowed (alistLookup s.entries oldId) = true →
      ∃ msg, (s.move_by_id oldId newId).1 = .error msg) ∧
    (alistLookup s.entries oldId = none →
     alistLookup s.backend (s.pathOf oldId) = none →
     alistLookup s.entries newId = none →
     alistLookup s.backend (s.pathOf newId) = none →
     oldId ≠ newId → s.pathOf oldId ≠ s.pathOf newId →
      (((s.create oldId).2.release (Entry.new oldId)).2.move_by_id oldId newId).1 =
        .ok () ∧
      (((((s.create oldId).2.release (Entry.new oldId)).2.move_by_id oldId newId).2.get
          oldId).1 = .ok none) ∧
      (((((s.create oldId).2.release (Entry.new oldId)).2.move_by_id oldId newId).2.get
          newId).1 = .ok (some (Entry.new oldId)))) := by
  have hframe : (s.move_by_id oldId newId).1 = .ok () ∨
      (s.move_by_id oldId newId).2 = s := by
    simp only [Store.move_by_id]
    split
    · exact Or.inr rfl
    · split
      · exact Or.inr rfl
      · split
        · exact Or.inr rfl
        · split
          · exact Or.inr rfl
          · split
            · exact Or.inl rfl
            · exact Or.inl rfl
  refine ⟨?_, ?_, ?_, ?_⟩
  · intro msg herr
    cases hframe with
    | inl hok => rw [hok] at herr; cases herr
    | inr hst => exact hst
  · intro hex
    simp only [Store.move_by_id]
    by_cases hcache : (alistLookup s.entries newId).isSome = true
    · rw [if_pos hcache]
      exact ⟨"EntryAlreadyExists", rfl⟩
    · have hbk : s.backendHas (s.pathOf newId) = true := by
        simp only [Bool.or_eq_true] at hex
        cases hex with
        | inl hx => exact absurd hx hcache
        | inr hx => exact hx
      rw [if_neg hcache]
      by_cases hbor : slotIsBorrowed (alistLookup s.entries oldId) = true
      · rw [if_pos hbor]
        exact ⟨"EntryAlreadyBorrowed", rfl⟩
      · rw [if_neg hbor, if_pos hbk]
        exact ⟨"EntryAlreadyExists", rfl⟩
  · intro hbor
    simp only [Store.move_by_id]
    by_cases hcache : (alistLookup s.entries newId).isSome = true
    · rw [if_pos hcache]
      exact ⟨"EntryAlreadyExists", rfl⟩
    · rw [if_neg hcache, if_pos hbor]
      exact ⟨"EntryAlreadyBorrowed", rfl⟩
  · intro hco hbo hcn hbn hne hpne
    simp only [Store.pathOf] at hbo hbn hpne
    have hnewold : withBaseIntoPathbuf s.location newId.path ≠
        withBaseIntoPathbuf s.location oldId.path := fun hh => hpne hh.symm
    have hfe : s.fileExists oldId = false := by
      simp [Store.fileExists, Store.backendHas, Store.pathOf, hco, hbo]
    have hcr : s.create oldId =
        (.ok (Entry.new oldId),
         { s with entries := alistInsert s.entries oldId ⟨oldId, .borrowed⟩ }) := by
      simp [Store.create, hfe, hco]
    have hrel : ((s.create oldId).2.release (Entry.new oldId)) =
        (.ok (),
         { s with
           entries := alistInsert (alistInsert s.entries oldId ⟨oldId, .borrowed⟩)
             oldId ⟨oldId, .present⟩,
           backend := alistInsert s.backend (withBaseIntoPathbuf s.location oldId.path)
             (Entry.new oldId) }) := by
      rw [hcr]
      simp [Store.release, Store.updateInternal, Store.pathOf, entry_new_location,
            entry_new_verify, alistLookup_insert_self]
    have h1 : alistLookup (alistInsert (alistInsert s.entries oldId ⟨oldId, .borrowed⟩)
        oldId ⟨oldId, .present⟩) newId = none := by
      rw [alistLookup_insert_ne _ _ _ _ (fun hh => hne hh.symm),
          alistLookup_insert_ne _ _ _ _ (fun hh => hne hh.symm), hcn]
    have h2 : alistLookup (alistInsert (alistInsert s.entries oldId ⟨oldId, .borrowed⟩)
        oldId ⟨oldId, .present⟩) oldId = some ⟨oldId, .present⟩ :=
      alistLookup_insert_self _ _ _
    have h3 : alistLookup (alistInsert s.backend
        (withBaseIntoPathbuf s.location oldId.path) (Entry.new oldId))
        (withBaseIntoPathbuf s.location newId.path) = none := by
      rw [alistLookup_insert_ne _ _ _ _ hnewold, hbn]
    have h4 : alistLookup (alistInsert s.backend
        (withBaseIntoPathbuf s.location oldId.path) (Entry.new oldId))
        (withBaseIntoPathbuf s.location oldId.path) = some (Entry.new oldId) :=
      alistLookup_insert_self _ _ _
    have hmv : (((s.create oldId).2.release (Entry.new oldId)).2.move_by_id oldId newId) =
        (.ok (),
         { s with
           entries := alistInsert
             (alistErase (alistInsert (alistInsert s.entries oldId ⟨oldId, .borrowed⟩)
               oldId ⟨oldId, .present⟩) oldId) newId ⟨newId, .present⟩,
           backend := alistInsert
             (alistErase (alistInsert s.backend
               (withBaseIntoPathbuf s.location oldId.path) (Entry.new oldId))
               (withBaseIntoPathbuf s.location oldId.path))
             (withBaseIntoPathbuf s.location newId.path) (Entry.new oldId) }) := by
      rw [hrel]
      simp [Store.move_by_id, Store.backendHas, Store.pathOf, slotIsBorrowed,
            h1, h2, h3, h4]
    have hgo : (((((s.create oldId).2.release (Entry.new oldId)).2.move_by_id oldId
        newId).2.get oldId).1 = .ok none) := by
      rw [hmv]
      have h5 : alistLookup (alistInsert
          (alistErase (alistInsert (alistInsert s.entries oldId ⟨oldId, .borrowed⟩)
            oldId ⟨oldId, .present⟩) oldId) newId ⟨newId, .present⟩) oldId = none := by
        rw [alistLookup_insert_ne _ _ _ _ hne, alistLookup_erase_self]
      have h6 : alistLookup (alistInsert
          (alistErase (alistInsert s.backend
            (withBaseIntoPathbuf s.location oldId.path) (Entry.new oldId))
            (withBaseIntoPathbuf s.location oldId.path))
          (withBaseIntoPathbuf s.location newId.path) (Entry.new oldId))
          (withBaseIntoPathbuf s.location oldId.path) = none := by
        rw [alistLookup_insert_ne _ _ _ _ hpne, alistLookup_erase_self]
      simp [Store.get, Store.fileExists, Store.backendHas, Store.pathOf, h5, h6]
    have hgn : (((((s.create oldId).2.release (Entry.new oldId)).2.move_by_id oldId
        newId).2.get newId).1 = .ok (some (Entry.new oldId))) := by
      rw [hmv]
      simp [Store.get, Store.retrieve, Store.fileExists, Store.backendHas,
            Store.readOrDefault, Store.pathOf, alistLookup_insert_self, slotIsBorrowed]
    exact ⟨by rw [hmv], hgo, hgn⟩

theorem store_move_by_id_spec_witness :
    ((((Store.mk ⟨true, []⟩ [] []).create ⟨⟨false, [Component.normal "o"]⟩⟩).2.release
        (Entry.new ⟨⟨false, [Component.normal "o"]⟩⟩)).2.move_by_id
        ⟨⟨false, [Component.normal "o"]⟩⟩ ⟨⟨false, [Component.normal "n"]⟩⟩).1 = .ok () ∧
    (((((Store.mk ⟨true, []⟩ [] []).create ⟨⟨false, [Component.normal "o"]⟩⟩).2.release
        (Entry.new ⟨⟨false, [Component.normal "o"]⟩⟩)).2.move_by_id
        ⟨⟨false, [Component.normal "o"]⟩⟩ ⟨⟨false, [Component.normal "n"]⟩⟩).2.get
        ⟨⟨false, [Component.normal "o"]⟩⟩).1 = .ok none ∧
    (((((Store.mk ⟨true, []⟩ [] []).create ⟨⟨false, [Component.normal "o"]⟩⟩).2.release
        (Entry.new ⟨⟨false, [Component.normal "o"]⟩⟩)).2.move_by_id
        ⟨⟨false, [Component.normal "o"]⟩⟩ ⟨⟨false, [Component.normal "n"]⟩⟩).2.get
        ⟨⟨false, [Component.normal "n"]⟩⟩).1 =
      .ok (some (Entry.new ⟨⟨false, [Component.normal "o"]⟩⟩)) := by
  have h := (store_move_by_id_spec (Store.mk ⟨true, []⟩ [] [])
    ⟨⟨false, [Component.normal "o"]⟩⟩ ⟨⟨false, [Component.normal "n"]⟩⟩).2.2.2
    rfl rfl rfl rfl (by decide) (by decide)
  exact h

end Imag

namespace Imag

/-- C6 counterexample scenario, step by step: create and release `a` and
`b` (both now exist in the backend), flush the cache (so neither is
cached), then borrow `a` again via retrieve. -/
def cxS0 : Store := ⟨⟨true, []⟩, [], []⟩

/-- The first id of the counterexample scenario. -/
def cxA : StoreId := ⟨⟨false, [Component.normal "a"]⟩⟩

/-- The second id of the counterexample scenario. -/
def cxB : StoreId := ⟨⟨false, [Component.normal "b"]⟩⟩

/-- The store after create/release of both ids, a cache flush and a fresh
borrow of `a`. -/
def cxS6 : Store :=
  (((((((cxS0.create cxA).2.release (Entry.new cxA)).2.create cxB).2.release
    (Entry.new cxB)).2.flush_cache).2.retrieve cxA).2)

/-- The handle entry obtained from the final retrieve of `a`. -/
def cxEnt : Entry := Entry.new cxA

/-- C6 counterexample: in a reachable state where the id `b` exists only
in the backend (the cache was flushed), `save_to` succeeds — the claimed
failure for a target id present only in the backend does not occur, and
the backend file for `b` is silently overwritten. -/
theorem save_to_backend_overwrite_cex :
    alistLookup cxS6.entries cxB = none ∧
    cxS6.backendHas (cxS6.pathOf cxB) = true ∧
    (cxS6.save_to cxEnt cxB).1 = .ok () := by
  refine ⟨rfl, rfl, rfl⟩

/-- C6 (amended): `save_to` and `save_as` fail (leaving the store
unchanged) when the target id is present in the cache map; the backend is
not consulted for the target, so when the target id is absent from the
cache the operations succeed whenever the source file exists, copying the
entry's backend representation onto the target path — overwriting any
backend file already there — and `save_as` additionally removes the
original backend file. -/
theorem save_to_other_location_spec (s : Store) (e : Entry) (newId : StoreId) :
    ((alistLookup s.entries newId).isSome = true →
      s.save_to e newId = (.error "EntryAlreadyExists", s) ∧
      s.save_as e newId = (.error "EntryAlreadyExists", s)) ∧
    (∀ f, alistLookup s.entries newId = none →
      alistLookup s.backend (s.pathOf e.location) = some f →
      s.save_to e newId =
        (.ok (), { s with backend := alistInsert s.backend (s.pathOf newId) f }) ∧
      s.save_as e newId =
        (.ok (), { s with
                   backend := alistErase (alistInsert s.backend (s.pathOf newId) f)
                     (s.pathOf e.location) })) := by
  constructor
  · intro hcached
    constructor <;>
      simp [Store.save_to, Store.save_as, Store.save_to_other_location, hcached]
  · intro f hc hf
    constructor <;>
      simp [Store.save_to, Store.save_as, Store.save_to_other_location, hc, hf]

theorem save_to_other_location_spec_witness :
    ((Store.mk ⟨true, []⟩
        [(⟨⟨false, [Component.normal "n"]⟩⟩, ⟨⟨⟨false, [Component.normal "n"]⟩⟩, .present⟩)]
        []).save_to (Entry.new ⟨⟨false, [Component.normal "o"]⟩⟩)
        ⟨⟨false, [Component.normal "n"]⟩⟩).1 = .error "EntryAlreadyExists" ∧
    ((Store.mk ⟨true, []⟩ []
        [(⟨true, [Component.normal "o"]⟩, Entry.new ⟨⟨false, [Component.normal "o"]⟩⟩)]).save_to
        (Entry.new ⟨⟨false, [Component.normal "o"]⟩⟩)
        ⟨⟨false, [Component.normal "n"]⟩⟩).1 = .ok () := by
  constructor
  · rw [((save_to_other_location_spec
      (Store.mk ⟨true, []⟩
        [(⟨⟨false, [Component.normal "n"]⟩⟩,
          ⟨⟨⟨false, [Component.normal "n"]⟩⟩, .present⟩)] [])
      (Entry.new ⟨⟨false, [Component.normal "o"]⟩⟩)
      ⟨⟨false, [Component.normal "n"]⟩⟩).1 rfl).1]
  · rw [((save_to_other_location_spec
      (Store.mk ⟨true, []⟩ []
        [(⟨true, [Component.normal "o"]⟩, Entry.new ⟨⟨false, [Component.normal "o"]⟩⟩)])
      (Entry.new ⟨⟨false, [Component.normal "o"]⟩⟩)
      ⟨⟨false, [Component.normal "n"]⟩⟩).2
      (Entry.new ⟨⟨false, [Component.normal "o"]⟩⟩) rfl rfl).1]

end Imag
